import Mathlib

/-
  Verification development for the streaming aggregation core of the
  dashboard-metricas repository (src/update_metrics.py).

  The embedding models:
  * the email pattern EMAIL_REGEX (update_metrics.py line 36) as an
    executable matcher over character lists;
  * process_chunk (lines 72-123): per-date daily counters, per-(date,domain)
    counts, and the global dedup index (occurrences / first_seen / last_seen);
  * flush_to_mysql (lines 125-206): the three upsert statements against the
    durable store;
  * main's drive loop (lines 257-262): fold the chunks, then flush once.

  Conventions:
  * calendar dates are Nat (e.g. 20250101 for 2025-01-01); a Row's `date`
    field is the result of pd.to_datetime(..., errors="coerce"), so `none`
    stands for NaT (null or unparseable creation date);
  * a Row's `email` field is the raw cell, `none` standing for SQL NULL.
    pandas `.astype(str)` (line 77) renders NULL as the literal string
    "None", which `pandasStr` reproduces;
  * dict accumulators (collections.defaultdict) are total functions with the
    default as initial value; a key is present in the Python dict exactly
    when its value differs from the default, because every key creation is
    immediately followed by an increment / assignment;
  * pandas numeric sums for opens/clicks are Int (to_numeric(...).fillna(0)
    is a Row field `Option Int`, coalesced to 0 when summing).
-/

set_option maxRecDepth 4000

namespace Dash

/-- pandas astype(str) on an object column: SQL NULL (Python None) becomes
the string "None"; actual strings are unchanged (update_metrics.py line 77). -/
def pandasStr : Option String → String
  | none => "None"
  | some s => s

/-- ASCII whitespace stripped by Python str.strip(). -/
def isPyWSpace (c : Char) : Bool :=
  c == ' ' || c == '\t' || c == '\n' || c == '\r' || c == '\x0b' || c == '\x0c'

/-- Python str.strip(): drop whitespace from both ends. -/
def strTrim (s : String) : String :=
  String.mk (((s.data.dropWhile isPyWSpace).reverse.dropWhile isPyWSpace).reverse)

/-- Python str.lower() (ASCII case folding, which covers every email byte the
pattern can accept). -/
def strLower (s : String) : String :=
  String.mk (s.data.map Char.toLower)

/-- Character class of the local part of EMAIL_REGEX (line 36). -/
def isLocalChar (c : Char) : Bool :=
  c.isAlpha || c.isDigit || c == '.' || c == '_' || c == '%' || c == '+' || c == '-' || c == '\''

/-- Character class of the host part of EMAIL_REGEX. -/
def isHostChar (c : Char) : Bool :=
  c.isAlpha || c.isDigit || c == '.' || c == '-'

/-- Split a character list at the first occurrence of `c`, returning the
parts before and after it. -/
def splitFirst (c : Char) : List Char → Option (List Char × List Char)
  | [] => none
  | x :: xs =>
    if x == c then some ([], xs)
    else
      match splitFirst c xs with
      | some (l, r) => some (x :: l, r)
      | none => none

/-- Split a character list at its last dot. -/
def splitLastDot (l : List Char) : Option (List Char × List Char) :=
  match splitFirst '.' l.reverse with
  | none => none
  | some (t, h) => some (h.reverse, t.reverse)

/-- Match the part of EMAIL_REGEX after the at sign. Because the TLD class
contains only letters, any successful backtracking decomposition must place
the mandatory literal dot at the last dot of the string, so checking that
single decomposition is complete. -/
def matchHostTld (r : List Char) : Bool :=
  match splitLastDot r with
  | none => false
  | some (h, t) => !h.isEmpty && h.all isHostChar && decide (2 ≤ t.length) && t.all Char.isAlpha

/-- EMAIL_REGEX as an executable matcher. The local class excludes the at
sign, so a successful match splits the string at its first at sign; the
pattern is anchored at both ends (re.match plus a trailing dollar). -/
def emailRegexMatch (s : String) : Bool :=
  match splitFirst '@' s.data with
  | none => false
  | some (l, r) => !l.isEmpty && l.all isLocalChar && matchHostTld r

/-- email_domain (lines 48-52): the part after the first at sign, lowered and
stripped; None (IndexError caught) when there is no at sign. -/
def email_domain (e : String) : Option String :=
  match splitFirst '@' e.data with
  | none => none
  | some (_, r) => some (strTrim (strLower (String.mk r)))

/-- One source row as the pipeline sees it after the SELECT: the raw email
cell, the parsed creation date (none for NaT), and optional numeric
opens/clicks. -/
structure Row where
  email : Option String
  date : Option Nat
  opens : Option Int
  clicks : Option Int
deriving DecidableEq, Repr

/-- The stripped email string of a row, i.e. the email column after line 77
(astype(str).str.strip()). -/
def Row.semail (r : Row) : String := strTrim (pandasStr r.email)

/-- Normalized dedup key of a row: str(...).lower().strip() (line 117). -/
def normKey (r : Row) : String := strTrim (strLower r.semail)

/-- The per-date counter record held in the `daily` defaultdict
(lines 55-65). -/
structure DailyMetric where
  total_rows : Nat
  with_email : Nat
  valid_emails : Nat
  invalid_emails : Nat
  duplicates_extra_rows : Nat
  unique_valid_emails : Nat
  sendable_emails : Nat
  total_opens : Int
  total_clicks : Int
deriving DecidableEq, Repr

/-- The defaultdict initializer for a fresh date key. -/
def DailyMetric.init : DailyMetric := ⟨0, 0, 0, 0, 0, 0, 0, 0, 0⟩

/-- The date-group `sub` of chunk.groupby("_metric_date") for key `d`:
rows whose parsed date is `d`, in chunk order. -/
def groupRows (rows : List Row) (d : Nat) : List Row :=
  rows.filter fun r => decide (r.date = some d)

/-- The distinct parsed dates of a chunk (the group keys of the groupby,
NaT dropped). -/
def chunkDates (rows : List Row) : List Nat :=
  (rows.filterMap Row.date).dedup

/-- Line 87: rows of the group whose stripped email is non-empty. -/
def withEmailRows (g : List Row) : List Row :=
  g.filter fun r => decide (0 < r.semail.length)

/-- Lines 90-91: rows of the with-email subset whose lowered email matches
EMAIL_REGEX. -/
def validRows (g : List Row) : List Row :=
  (withEmailRows g).filter fun r => emailRegexMatch (strLower r.semail)

/-- Line 92: the complement of the valid mask inside the with-email subset. -/
def invalidRows (g : List Row) : List Row :=
  (withEmailRows g).filter fun r => !emailRegexMatch (strLower r.semail)

/-- Line 97: the lowercased emails of the valid rows (the series that
value_counts() runs over). -/
def normValid (g : List Row) : List String :=
  (validRows g).map fun r => strLower r.semail

/-- Line 99: the number of distinct values in the value_counts index. -/
def uniqueValid (g : List Row) : Nat := (normValid g).dedup.length

/-- Line 98: sum of (count - 1) over values occurring more than once; values
with count 1 contribute 0, so summing over all distinct values is the same. -/
def duplicatesExtra (g : List Row) : Nat :=
  ((normValid g).dedup.map fun e => (normValid g).count e - 1).sum

/-- Line 111: domains of the valid rows (map email_domain then dropna). -/
def domainsOf (g : List Row) : List String :=
  (validRows g).filterMap fun r => email_domain (strLower r.semail)

/-- The count that lines 112-113 add for one (date, domain) pair. -/
def domCount (g : List Row) (dom : String) : Nat := (domainsOf g).count dom

/-- Line 106: to_numeric(...).fillna(0).sum() over the whole date group. -/
def opensSum (g : List Row) : Int := (g.map fun r => r.opens.getD 0).sum

/-- Line 108: same for clicks. -/
def clicksSum (g : List Row) : Int := (g.map fun r => r.clicks.getD 0).sum

/-- Lines 85-108: the counter updates one date group applies to its date's
DailyMetric entry. -/
def updateDaily (m : DailyMetric) (g : List Row) : DailyMetric :=
  { total_rows := m.total_rows + g.length
    with_email := m.with_email + (withEmailRows g).length
    valid_emails := m.valid_emails + (validRows g).length
    invalid_emails := m.invalid_emails + (invalidRows g).length
    duplicates_extra_rows := m.duplicates_extra_rows + duplicatesExtra g
    unique_valid_emails := m.unique_valid_emails + uniqueValid g
    sendable_emails := m.sendable_emails + (validRows g).length
    total_opens := m.total_opens + opensSum g
    total_clicks := m.total_clicks + clicksSum g }

/-- The for-loop over groupby groups (lines 80-108) acting on the `daily`
defaultdict: each distinct date key updates its own entry from its group. -/
def processDaily (f : Nat → DailyMetric) (rows : List Row) : Nat → DailyMetric :=
  (chunkDates rows).foldl
    (fun g d => Function.update g d (updateDaily (g d) (groupRows rows d))) f

/-- Lines 110-113 acting on the domains_daily defaultdict: for each date
group, add the group's domain value_counts to that date's table. -/
def processDomains (f : Nat → String → Nat) (rows : List Row) : Nat → String → Nat :=
  (chunkDates rows).foldl
    (fun g d => Function.update g d (fun dom => g d dom + domCount (groupRows rows d) dom)) f

/-- The three module-level dedup dicts (lines 68-70). -/
structure GlobalDedup where
  email_global_counts : String → Nat
  email_first_seen : String → Option Nat
  email_last_seen : String → Option Nat

/-- Lines 117-123: one iteration of the row loop over valid_all. Rows with
NaT dates were removed by the dropna on line 116, so the none branch is
unreachable on the rows this is folded over. -/
def dedupStep (t : GlobalDedup) (r : Row) : GlobalDedup :=
  match r.date with
  | none => t
  | some dt =>
    let e := normKey r
    { email_global_counts :=
        Function.update t.email_global_counts e (t.email_global_counts e + 1)
      email_first_seen :=
        Function.update t.email_first_seen e
          (match t.email_first_seen e with
           | none => some dt
           | some a => if dt < a then some dt else some a)
      email_last_seen :=
        Function.update t.email_last_seen e
          (match t.email_last_seen e with
           | none => some dt
           | some a => if a < dt then some dt else some a) }

/-- Lines 115-116: filter the chunk to regex-valid emails, then dropna on
the [email, _metric_date] projection (the email column is never NaN after
astype(str), so only NaT dates are dropped). -/
def dedupRows (rows : List Row) : List Row :=
  (rows.filter fun r => emailRegexMatch (strLower r.semail)).filter fun r => r.date.isSome

/-- The full row loop of lines 115-123. -/
def processDedup (t : GlobalDedup) (rows : List Row) : GlobalDedup :=
  (dedupRows rows).foldl dedupStep t

/-- All module-level accumulator state of one run (lines 55-70). -/
structure AggState where
  daily : Nat → DailyMetric
  domains_daily : Nat → String → Nat
  dedup : GlobalDedup

/-- The accumulators as initialized at module load: empty defaultdicts. -/
def initState : AggState :=
  ⟨fun _ => DailyMetric.init, fun _ _ => 0, ⟨fun _ => 0, fun _ => none, fun _ => none⟩⟩

/-- The effect of process_chunk's body (lines 77-123) on the accumulators,
after the column check has passed. -/
def applyChunk (s : AggState) (rows : List Row) : AggState :=
  { daily := processDaily s.daily rows
    domains_daily := processDomains s.domains_daily rows
    dedup := processDedup s.dedup rows }

/-- EMAIL_COLUMN default (line 27). -/
def EMAIL_COLUMN : String := "Email"

/-- DATE_COLUMN default (line 28). -/
def DATE_COLUMN : String := "Fecha_de_creacion"

/-- One chunk handed to process_chunk: its column names and its rows. -/
structure Batch where
  cols : List String
  rows : List Row
deriving DecidableEq, Repr

/-- The column-presence check on lines 74-75. -/
def hasRequiredCols (b : Batch) : Bool :=
  b.cols.contains EMAIL_COLUMN && b.cols.contains DATE_COLUMN

/-- process_chunk (lines 72-123): raise RuntimeError when a required column
is missing, otherwise fold the chunk into the accumulators. -/
def process_chunk (s : AggState) (b : Batch) : Except String AggState :=
  if hasRequiredCols b then .ok (applyChunk s b.rows)
  else .error "Chunk sin columnas esperadas"

/-- The chunk loop of main (lines 257-260): process chunks in order, any
RuntimeError propagating and aborting the run. -/
def runBatches (bs : List Batch) : Except String AggState :=
  bs.foldlM process_chunk initState

/-- Pure fold of well-formed chunks, used to reason about successful runs. -/
def foldChunks (s : AggState) (bs : List Batch) : AggState :=
  bs.foldl (fun s b => applyChunk s b.rows) s

/-- The accumulator state a successful run ends with. -/
def runPure (bs : List Batch) : AggState := foldChunks initState bs

/-- All rows of a batch sequence in processing order. -/
def flatRows (bs : List Batch) : List Row := (bs.map Batch.rows).flatten

/-- One row of the metrics_repeated_emails table (both date columns are
nullable in the store). -/
structure RepRow where
  occurrences : Nat
  first_seen : Option Nat
  last_seen : Option Nat
deriving DecidableEq, Repr

/-- The destination store: the three tables, keyed as in the upserts. -/
structure Store where
  metrics_daily : Nat → Option DailyMetric
  metrics_top_domains_daily : Nat → String → Option Nat
  metrics_repeated_emails : String → Option RepRow

/-- MySQL LEAST(COALESCE(old, new), new) from line 202: NULL old falls back
to new; LEAST returns NULL when any argument is NULL. -/
def leastCoalesce (old nw : Option Nat) : Option Nat :=
  match old, nw with
  | none, nw => nw
  | some _, none => none
  | some a, some b => some (Nat.min a b)

/-- MySQL GREATEST(COALESCE(old, new), new) from line 203. -/
def greatestCoalesce (old nw : Option Nat) : Option Nat :=
  match old, nw with
  | none, nw => nw
  | some _, none => none
  | some a, some b => some (Nat.max a b)

/-- The ON DUPLICATE KEY UPDATE of lines 196-204: insert when the key is
absent; otherwise overwrite occurrences and merge the seen dates. -/
def upsertRep (old : Option RepRow) (nw : RepRow) : RepRow :=
  match old with
  | none => nw
  | some o => ⟨nw.occurrences, leastCoalesce o.first_seen nw.first_seen,
               greatestCoalesce o.last_seen nw.last_seen⟩

/-- flush_to_mysql (lines 125-206) acting on the store. Key sets of the
uploaded frames are expressed through the accumulator defaults: a date is a
key of `daily` iff its total_rows is non-zero (every key creation on line 85
adds a non-empty group), a (date, domain) pair is a key iff its count is
non-zero (line 113 adds positive value_counts), and an email is a key of the
dedup index iff its occurrence count is non-zero (line 119 increments on
creation). metrics_daily and metrics_top_domains_daily overwrite every
column on conflict (lines 148-157, 176-177). -/
def flush_to_mysql (store : Store) (s : AggState) : Store :=
  { metrics_daily := fun d =>
      if (s.daily d).total_rows ≠ 0 then some (s.daily d) else store.metrics_daily d
    metrics_top_domains_daily := fun d dom =>
      if s.domains_daily d dom ≠ 0 then some (s.domains_daily d dom)
      else store.metrics_top_domains_daily d dom
    metrics_repeated_emails := fun e =>
      if s.dedup.email_global_counts e ≠ 0 then
        some (upsertRep (store.metrics_repeated_emails e)
          ⟨s.dedup.email_global_counts e, s.dedup.email_first_seen e,
           s.dedup.email_last_seen e⟩)
      else store.metrics_repeated_emails e }

/-- main (lines 257-262): fold every chunk, then flush exactly once; a
RuntimeError from process_chunk propagates and the flush never runs. -/
def mainRun (store : Store) (bs : List Batch) : Except String Store :=
  (runBatches bs).map (flush_to_mysql store)

/-- A store with all three tables empty. -/
def emptyStore : Store := ⟨fun _ => none, fun _ _ => none, fun _ => none⟩

/-- A single-row chunk carrying the given raw email cell, dated day 0. -/
def mkRow (e : Option String) : Row := ⟨e, some 0, none, none⟩

/-- The required columns, as the renamed chunks of main always carry them. -/
def stdCols : List String := [EMAIL_COLUMN, DATE_COLUMN]

/-- The (total_rows, with_email, valid_emails, invalid_emails) contribution
of one email cell processed alone: (1,0,0,0) is the spec's EMPTY outcome,
(1,1,1,0) is VALID and (1,1,0,1) is INVALID. -/
def classifyCounts (e : Option String) : Nat × Nat × Nat × Nat :=
  let m := (applyChunk initState [mkRow e]).daily 0
  (m.total_rows, m.with_email, m.valid_emails, m.invalid_emails)

/-- The (day 0, dom) domain count after processing one email cell alone. -/
def classifyDomain (e : Option String) (dom : String) : Nat :=
  (applyChunk initState [mkRow e]).domains_daily 0 dom

/-- The per-date outputs of a run that do not depend on how the row sequence
was cut into chunks: every daily counter except the batch-local
unique_valid_emails / duplicates_extra_rows pair. -/
def stableDaily (m : DailyMetric) : Nat × Nat × Nat × Nat × Nat × Int × Int :=
  (m.total_rows, m.with_email, m.valid_emails, m.invalid_emails,
   m.sendable_emails, m.total_opens, m.total_clicks)

/-- The batch-split-invariant projection of the accumulator state: the
stable daily counters, the (date, domain) counts and the whole global dedup
index. -/
def stablePart (s : AggState) :
    (Nat → Nat × Nat × Nat × Nat × Nat × Int × Int) × (Nat → String → Nat)
      × (String → Nat) × (String → Option Nat) × (String → Option Nat) :=
  (fun d => stableDaily (s.daily d), s.domains_daily,
   s.dedup.email_global_counts, s.dedup.email_first_seen, s.dedup.email_last_seen)

/-- A batch with the rows whose creation date failed to parse removed
(columns unchanged). -/
def dropUnparseable (b : Batch) : Batch :=
  ⟨b.cols, b.rows.filter fun r => r.date.isSome⟩

/-- Concrete fixture row: a valid email dated day 1. -/
def wRow1 : Row := ⟨some "a@x.com", some 1, none, none⟩

/-- Concrete fixture row: the same email upper-cased and padded, dated day 2. -/
def wRow2 : Row := ⟨some "A@X.COM ", some 2, none, none⟩

/-- Fixture batch holding both rows. -/
def wBatch : Batch := ⟨stdCols, [wRow1, wRow2]⟩

/-- Fixture batch holding only the first row. -/
def wBatchA : Batch := ⟨stdCols, [wRow1]⟩

/-- Fixture batch holding only the second row. -/
def wBatchB : Batch := ⟨stdCols, [wRow2]⟩

/-- Fixture batch missing both required columns. -/
def wBadBatch : Batch := ⟨[], []⟩

/-- Fixture store holding one pre-existing repeated-email row. -/
def wStore : Store :=
  ⟨fun _ => none, fun _ _ => none,
   fun e => if e = "a@x.com" then some ⟨1, some 5, some 7⟩ else none⟩

/-- Fixture accumulator state with two dedup entries. -/
def wAgg : AggState :=
  { daily := fun _ => DailyMetric.init
    domains_daily := fun _ _ => 0
    dedup := ⟨fun e => if e = "a@x.com" || e = "b@y.com" then 2 else 0,
              fun e => if e = "a@x.com" || e = "b@y.com" then some 6 else none,
              fun e => if e = "a@x.com" || e = "b@y.com" then some 6 else none⟩ }

/-- The five-row batch of the spec's worked scenario, dated 2025-01-01. -/
def c4Batch : Batch :=
  ⟨stdCols,
   [⟨some "a@x.com", some 20250101, none, none⟩,
    ⟨some "A@X.COM", some 20250101, none, none⟩,
    ⟨some "b@y.com", some 20250101, none, none⟩,
    ⟨some "", some 20250101, none, none⟩,
    ⟨some "bad", some 20250101, none, none⟩]⟩

/-- Folding pointwise updates over distinct keys touches each key once. -/
theorem foldl_update_point {α : Type} (u : Nat → α → α) :
    ∀ (ks : List Nat), ks.Nodup → ∀ (f : Nat → α) (d : Nat),
      (ks.foldl (fun g k => Function.update g k (u k (g k))) f) d
        = if d ∈ ks then u d (f d) else f d := by
  intro ks
  induction ks with
  | nil => intro _ f d; simp
  | cons k ks ih =>
    intro hnd f d
    have hk : k ∉ ks := (List.nodup_cons.mp hnd).1
    have hks : ks.Nodup := (List.nodup_cons.mp hnd).2
    simp only [List.foldl_cons]
    rw [ih hks]
    by_cases hdk : d = k
    · subst hdk
      simp [hk, Function.update_same]
    · simp [Function.update_noteq hdk, List.mem_cons, hdk]

/-- A date is a group key of a chunk exactly when its group is non-empty. -/
theorem mem_chunkDates (rows : List Row) (d : Nat) :
    d ∈ chunkDates rows ↔ groupRows rows d ≠ [] := by
  unfold chunkDates groupRows
  rw [List.mem_dedup, List.mem_filterMap, Ne, List.filter_eq_nil_iff]
  push_neg
  constructor
  · rintro ⟨r, hr, hd⟩
    exact ⟨r, hr, by simpa using hd⟩
  · rintro ⟨r, hr, hd⟩
    exact ⟨r, hr, by simpa using hd⟩

/-- An empty date group changes no counter. -/
theorem updateDaily_nil (m : DailyMetric) : updateDaily m [] = m := by
  simp [updateDaily, withEmailRows, validRows, invalidRows, duplicatesExtra,
        uniqueValid, normValid, opensSum, clicksSum]

/-- Pointwise effect of the groupby loop on the daily dict: each date entry
is updated from its own group (absent dates have empty groups). -/
theorem processDaily_eq (f : Nat → DailyMetric) (rows : List Row) (d : Nat) :
    processDaily f rows d = updateDaily (f d) (groupRows rows d) := by
  have h := foldl_update_point (fun k m => updateDaily m (groupRows rows k))
    (chunkDates rows) (List.nodup_dedup _) f d
  by_cases hm : d ∈ chunkDates rows
  · exact h.trans (if_pos hm)
  · have hnil : groupRows rows d = [] := by
      by_contra hne
      exact hm ((mem_chunkDates rows d).mpr hne)
    refine (h.trans (if_neg hm)).trans ?_
    rw [hnil, updateDaily_nil]

/-- The empty group contributes no domain count. -/
theorem domCount_nil (dom : String) : domCount [] dom = 0 := by
  simp [domCount, domainsOf, validRows, withEmailRows]

/-- Pointwise effect of the groupby loop on the domains_daily dict. -/
theorem processDomains_eq (f : Nat → String → Nat) (rows : List Row) (d : Nat)
    (dom : String) :
    processDomains f rows d dom = f d dom + domCount (groupRows rows d) dom := by
  have h := foldl_update_point
    (fun k t => fun dm => t dm + domCount (groupRows rows k) dm)
    (chunkDates rows) (List.nodup_dedup _) f d
  by_cases hm : d ∈ chunkDates rows
  · exact congrFun (h.trans (if_pos hm)) dom
  · have hnil : groupRows rows d = [] := by
      by_contra hne
      exact hm ((mem_chunkDates rows d).mpr hne)
    refine (congrFun (h.trans (if_neg hm)) dom).trans ?_
    rw [hnil, domCount_nil]
    omega

/-- The daily component of one processed chunk, date by date. -/
theorem applyChunk_daily (s : AggState) (rows : List Row) (d : Nat) :
    (applyChunk s rows).daily d = updateDaily (s.daily d) (groupRows rows d) :=
  processDaily_eq s.daily rows d

/-- The domains component of one processed chunk, key by key. -/
theorem applyChunk_domains (s : AggState) (rows : List Row) (d : Nat) (dom : String) :
    (applyChunk s rows).domains_daily d dom
      = s.domains_daily d dom + domCount (groupRows rows d) dom :=
  processDomains_eq s.domains_daily rows d dom

/-- Date groups split along list concatenation. -/
theorem groupRows_append (a b : List Row) (d : Nat) :
    groupRows (a ++ b) d = groupRows a d ++ groupRows b d := by
  simp [groupRows]

/-- The with-email subset splits along concatenation. -/
theorem withEmailRows_append (a b : List Row) :
    withEmailRows (a ++ b) = withEmailRows a ++ withEmailRows b := by
  simp [withEmailRows]

/-- The valid subset splits along concatenation. -/
theorem validRows_append (a b : List Row) :
    validRows (a ++ b) = validRows a ++ validRows b := by
  simp [validRows, withEmailRows]

/-- The invalid subset splits along concatenation. -/
theorem invalidRows_append (a b : List Row) :
    invalidRows (a ++ b) = invalidRows a ++ invalidRows b := by
  simp [invalidRows, withEmailRows]

/-- Domain lists split along concatenation. -/
theorem domainsOf_append (a b : List Row) :
    domainsOf (a ++ b) = domainsOf a ++ domainsOf b := by
  simp [domainsOf, validRows_append]

/-- Domain counts add along concatenation. -/
theorem domCount_append (a b : List Row) (dom : String) :
    domCount (a ++ b) dom = domCount a dom + domCount b dom := by
  simp [domCount, domainsOf_append]

/-- Opens sums add along concatenation. -/
theorem opensSum_append (a b : List Row) : opensSum (a ++ b) = opensSum a + opensSum b := by
  simp [opensSum]

/-- Clicks sums add along concatenation. -/
theorem clicksSum_append (a b : List Row) : clicksSum (a ++ b) = clicksSum a + clicksSum b := by
  simp [clicksSum]

/-- The first processed chunk peels off the chunk fold. -/
theorem foldChunks_cons (s : AggState) (b : Batch) (bs : List Batch) :
    foldChunks s (b :: bs) = foldChunks (applyChunk s b.rows) bs := rfl

/-- The rows of a batch sequence flatten chunk by chunk. -/
theorem flatRows_cons (b : Batch) (bs : List Batch) :
    flatRows (b :: bs) = b.rows ++ flatRows bs := by
  simp [flatRows]

/-- Any daily counter whose per-group contribution is additive in the group
accumulates, over a run, the contribution of the date's rows across all
chunks. -/
theorem foldChunks_field {M : Type} [AddCommMonoid M] (F : DailyMetric → M)
    (G : List Row → M) (hstep : ∀ m g, F (updateDaily m g) = F m + G g)
    (hG0 : G [] = 0) (hG : ∀ a b, G (a ++ b) = G a + G b) :
    ∀ (bs : List Batch) (s : AggState) (d : Nat),
      F ((foldChunks s bs).daily d) = F (s.daily d) + G (groupRows (flatRows bs) d) := by
  intro bs
  induction bs with
  | nil =>
    intro s d
    simp [foldChunks, flatRows, groupRows, hG0]
  | cons b bs ih =>
    intro s d
    rw [foldChunks_cons, ih, applyChunk_daily, hstep, flatRows_cons,
        groupRows_append, hG, add_assoc]

/-- The dedup candidate rows split along concatenation. -/
theorem dedupRows_append (a b : List Row) :
    dedupRows (a ++ b) = dedupRows a ++ dedupRows b := by
  simp [dedupRows]

/-- The global dedup index of a run is the row-by-row fold over all rows of
all chunks in order, independent of the chunk boundaries. -/
theorem foldChunks_dedup (bs : List Batch) :
    ∀ s : AggState, (foldChunks s bs).dedup = processDedup s.dedup (flatRows bs) := by
  induction bs with
  | nil => intro s; rfl
  | cons b bs ih =>
    intro s
    rw [foldChunks_cons, ih]
    show processDedup (processDedup s.dedup b.rows) (flatRows bs)
        = processDedup s.dedup (flatRows (b :: bs))
    rw [flatRows_cons]
    simp [processDedup, dedupRows_append, List.foldl_append]

/-- The domains table of a run counts each (date, domain) pair over all rows
of all chunks. -/
theorem foldChunks_domains (bs : List Batch) :
    ∀ (s : AggState) (d : Nat) (dom : String),
      (foldChunks s bs).domains_daily d dom
        = s.domains_daily d dom + domCount (groupRows (flatRows bs) d) dom := by
  induction bs with
  | nil =>
    intro s d dom
    simp [foldChunks, flatRows, groupRows, domCount_nil]
  | cons b bs ih =>
    intro s d dom
    rw [foldChunks_cons, ih, applyChunk_domains, flatRows_cons, groupRows_append,
        domCount_append, Nat.add_assoc]

/-- A run that raised no error folded exactly its chunks, and every chunk
passed the column check. -/
theorem runBatches_ok_inv (bs : List Batch) :
    ∀ (s0 s : AggState), bs.foldlM process_chunk s0 = Except.ok s → s = foldChunks s0 bs := by
  induction bs with
  | nil =>
    intro s0 s h
    simp [List.foldlM, pure, Except.pure] at h
    exact h.symm
  | cons b bs ih =>
    intro s0 s h
    rw [List.foldlM_cons] at h
    by_cases hc : hasRequiredCols b
    · rw [foldChunks_cons]
      refine ih _ s ?_
      simpa [process_chunk, hc] using h
    · have hpc : process_chunk s0 b = Except.error "Chunk sin columnas esperadas" := by
        simp [process_chunk, hc]
      rw [hpc] at h
      exact Except.noConfusion h

/-- A run over chunks that all carry the required columns succeeds and ends
in the pure fold of its chunks. -/
theorem runBatches_ok (bs : List Batch) :
    ∀ s0 : AggState, (∀ b ∈ bs, hasRequiredCols b = true) →
      bs.foldlM process_chunk s0 = Except.ok (foldChunks s0 bs) := by
  induction bs with
  | nil => intro s0 _; rfl
  | cons b bs ih =>
    intro s0 hall
    have hb : hasRequiredCols b = true := hall b (List.mem_cons_self b bs)
    rw [List.foldlM_cons]
    simp only [process_chunk, hb, if_pos]
    rw [foldChunks_cons]
    exact ih _ fun x hx => hall x (List.mem_cons_of_mem b hx)

/-- The successful run ends in runPure. -/
theorem runBatches_eq_runPure (bs : List Batch)
    (h : ∀ b ∈ bs, hasRequiredCols b = true) :
    runBatches bs = Except.ok (runPure bs) :=
  runBatches_ok bs initState h

/-- Sums of pointwise sums of Nat-valued maps split. -/
theorem sum_map_addf {α : Type} (l : List α) (f g : α → Nat) :
    (l.map fun x => f x + g x).sum = (l.map f).sum + (l.map g).sum := by
  induction l with
  | nil => rfl
  | cons a l ih =>
    simp only [List.map_cons, List.sum_cons, ih]
    omega

/-- Summing the indicator of one value over a list counts its occurrences. -/
theorem sum_map_indicator (a : String) (ks : List String) :
    (ks.map fun e => if e = a then 1 else 0).sum = ks.count a := by
  induction ks with
  | nil => rfl
  | cons k ks ih =>
    by_cases h : k = a
    · subst h
      simp [List.count_cons, ih]
      omega
    · simp [List.count_cons, ih, h, Ne.symm h]

/-- Summing each distinct value's multiplicity recovers the list length. -/
theorem sum_counts_dedup (l : List String) :
    (l.dedup.map fun e => l.count e).sum = l.length := by
  induction l with
  | nil => rfl
  | cons a l ih =>
    by_cases h : a ∈ l
    · rw [List.dedup_cons_of_mem h]
      have hsplit : (l.dedup.map fun e => (a :: l).count e).sum
          = (l.dedup.map fun e => l.count e).sum
            + (l.dedup.map fun e => if e = a then 1 else 0).sum := by
        rw [← sum_map_addf]
        refine congrArg _ (List.map_congr_left ?_)
        intro e _
        rw [List.count_cons]
        rcases eq_or_ne e a with he | he
        · simp [he]
        · simp [he, Ne.symm he]
      have hone : l.dedup.count a = 1 :=
        List.count_eq_one_of_mem (List.nodup_dedup l) (List.mem_dedup.mpr h)
      rw [hsplit, ih, sum_map_indicator, hone]
      simp
    · rw [List.dedup_cons_of_not_mem h]
      have hzero : l.count a = 0 := List.count_eq_zero_of_not_mem h
      have hsplit : (l.dedup.map fun e => (a :: l).count e).sum
          = (l.dedup.map fun e => l.count e).sum
            + (l.dedup.map fun e => if e = a then 1 else 0).sum := by
        rw [← sum_map_addf]
        refine congrArg _ (List.map_congr_left ?_)
        intro e _
        rw [List.count_cons]
        rcases eq_or_ne e a with he | he
        · simp [he]
        · simp [he, Ne.symm he]
      have hnd : l.dedup.count a = 0 :=
        List.count_eq_zero_of_not_mem (fun hm => h (List.mem_dedup.mp hm))
      simp only [List.map_cons, List.sum_cons, hsplit, ih, sum_map_indicator,
                 List.count_cons_self, hzero, hnd]
      simp [List.count_cons, hzero]
      omega

/-- The distinct count plus the extra-occurrence count of a list equals its
length. -/
theorem dedup_sub_one_sum (l : List String) :
    l.dedup.length + (l.dedup.map fun e => l.count e - 1).sum = l.length := by
  have h1 : ∀ ks : List String, (∀ e ∈ ks, 1 ≤ l.count e) →
      (ks.map fun e => l.count e - 1).sum + ks.length
        = (ks.map fun e => l.count e).sum := by
    intro ks
    induction ks with
    | nil => intro _; rfl
    | cons k ks ih =>
      intro h
      have hk := h k (List.mem_cons_self k ks)
      have hks := ih fun e he => h e (List.mem_cons_of_mem k he)
      simp only [List.map_cons, List.sum_cons, List.length_cons]
      omega
  have h2 : ∀ e ∈ l.dedup, 1 ≤ l.count e := by
    intro e he
    exact List.count_pos_iff.mpr (List.mem_dedup.mp he)
  have h3 := h1 l.dedup h2
  rw [sum_counts_dedup] at h3
  omega

/-- Within one date group, distinct valid emails plus extra duplicate rows
account exactly for the valid rows. -/
theorem group_unique_dupes (g : List Row) :
    uniqueValid g + duplicatesExtra g = (validRows g).length := by
  have h := dedup_sub_one_sum (normValid g)
  have hlen : (normValid g).length = (validRows g).length := by simp [normValid]
  unfold uniqueValid duplicatesExtra
  omega

/-- A boolean predicate partitions a list into filter lengths. -/
theorem length_filter_split {α : Type} (p : α → Bool) (l : List α) :
    (l.filter p).length + (l.filter fun a => !p a).length = l.length := by
  induction l with
  | nil => rfl
  | cons a l ih =>
    by_cases h : p a <;> simp [List.filter_cons, h] <;> omega

/-- The valid mask and its complement partition the with-email subset. -/
theorem group_valid_invalid_split (g : List Row) :
    (validRows g).length + (invalidRows g).length = (withEmailRows g).length :=
  length_filter_split _ (withEmailRows g)

/-- The with-email subset is no larger than its group. -/
theorem withEmail_le_total (g : List Row) : (withEmailRows g).length ≤ g.length :=
  List.length_filter_le _ g

/-- The per-date identity unique + duplicates = valid is preserved by every
chunk fold. -/
theorem foldChunks_ud (bs : List Batch) :
    ∀ (s : AggState) (d : Nat),
      (s.daily d).unique_valid_emails + (s.daily d).duplicates_extra_rows
          = (s.daily d).valid_emails →
      ((foldChunks s bs).daily d).unique_valid_emails
          + ((foldChunks s bs).daily d).duplicates_extra_rows
        = ((foldChunks s bs).daily d).valid_emails := by
  induction bs with
  | nil => intro s d h; exact h
  | cons b bs ih =>
    intro s d h
    rw [foldChunks_cons]
    refine ih _ d ?_
    rw [applyChunk_daily]
    have hg := group_unique_dupes (groupRows b.rows d)
    simp only [updateDaily]
    omega

/-- Summing the multiplicities of distinct values bounds the list length. -/
theorem sum_counts_le (ds l : List String) (h : ds.Nodup) :
    (ds.map fun x => l.count x).sum ≤ l.length := by
  induction l with
  | nil => simp
  | cons a l ih =>
    have hsplit : (ds.map fun x => (a :: l).count x).sum
        = (ds.map fun x => l.count x).sum
          + (ds.map fun x => if x = a then 1 else 0).sum := by
      rw [← sum_map_addf]
      refine congrArg _ (List.map_congr_left ?_)
      intro e _
      rw [List.count_cons]
      rcases eq_or_ne e a with he | he
      · simp [he]
      · simp [he, Ne.symm he]
    have hind := sum_map_indicator a ds
    have hle : ds.count a ≤ 1 := List.nodup_iff_count_le_one.mp h a
    simp only [hsplit, hind, List.length_cons]
    omega

/-- The stable daily counters of a run are plain counts over the date's rows
across all chunks. -/
theorem runPure_stableDaily (bs : List Batch) (d : Nat) :
    stableDaily ((runPure bs).daily d)
      = ((groupRows (flatRows bs) d).length,
         (withEmailRows (groupRows (flatRows bs) d)).length,
         (validRows (groupRows (flatRows bs) d)).length,
         (invalidRows (groupRows (flatRows bs) d)).length,
         (validRows (groupRows (flatRows bs) d)).length,
         opensSum (groupRows (flatRows bs) d),
         clicksSum (groupRows (flatRows bs) d)) := by
  have ht := foldChunks_field (fun m => m.total_rows) (fun g => g.length)
    (fun m g => rfl) rfl (fun a b => by simp) bs initState d
  have hw := foldChunks_field (fun m => m.with_email) (fun g => (withEmailRows g).length)
    (fun m g => rfl) rfl (fun a b => by simp [withEmailRows_append]) bs initState d
  have hv := foldChunks_field (fun m => m.valid_emails) (fun g => (validRows g).length)
    (fun m g => rfl) rfl (fun a b => by simp [validRows_append]) bs initState d
  have hi := foldChunks_field (fun m => m.invalid_emails) (fun g => (invalidRows g).length)
    (fun m g => rfl) rfl (fun a b => by simp [invalidRows_append]) bs initState d
  have hs := foldChunks_field (fun m => m.sendable_emails) (fun g => (validRows g).length)
    (fun m g => rfl) rfl (fun a b => by simp [validRows_append]) bs initState d
  have ho := foldChunks_field (fun m => m.total_opens) opensSum
    (fun m g => rfl) rfl opensSum_append bs initState d
  have hc := foldChunks_field (fun m => m.total_clicks) clicksSum
    (fun m g => rfl) rfl clicksSum_append bs initState d
  unfold stableDaily runPure
  rw [ht, hw, hv, hi, hs, ho, hc]
  simp [initState, DailyMetric.init]

/-- The domains table of a run counts domains over the date's rows across
all chunks. -/
theorem runPure_domains (bs : List Batch) (d : Nat) (dom : String) :
    (runPure bs).domains_daily d dom = domCount (groupRows (flatRows bs) d) dom := by
  have h := foldChunks_domains bs initState d dom
  simpa [runPure, initState] using h

/-- The dedup index of a run is the fold over all rows in order. -/
theorem runPure_dedup (bs : List Batch) :
    (runPure bs).dedup = processDedup initState.dedup (flatRows bs) :=
  foldChunks_dedup bs initState

/-- The least-merge of the repeated-email upsert is absorbed by repetition. -/
theorem leastCoalesce_absorb (a b : Option Nat) :
    leastCoalesce (leastCoalesce a b) b = leastCoalesce a b := by
  cases a <;> cases b <;>
    simp [leastCoalesce, Nat.min_assoc, Nat.min_self]

/-- The greatest-merge of the repeated-email upsert is absorbed by
repetition. -/
theorem greatestCoalesce_absorb (a b : Option Nat) :
    greatestCoalesce (greatestCoalesce a b) b = greatestCoalesce a b := by
  cases a <;> cases b <;>
    simp [greatestCoalesce, Nat.max_assoc, Nat.max_self]

/-- Re-upserting the same repeated-email values changes nothing. -/
theorem upsertRep_absorb (old : Option RepRow) (nw : RepRow) :
    upsertRep (some (upsertRep old nw)) nw = upsertRep old nw := by
  cases old with
  | none =>
    cases nw with
    | mk occ fs ls =>
      cases fs <;> cases ls <;>
        simp [upsertRep, leastCoalesce, greatestCoalesce, Nat.min_self, Nat.max_self]
  | some o =>
    simp [upsertRep, leastCoalesce_absorb, greatestCoalesce_absorb]

/-- Flushing the same accumulator state twice equals flushing it once. -/
theorem flush_idem (store : Store) (s : AggState) :
    flush_to_mysql (flush_to_mysql store s) s = flush_to_mysql store s := by
  unfold flush_to_mysql
  simp only [Store.mk.injEq]
  refine ⟨?_, ?_, ?_⟩
  · funext d
    by_cases h : (s.daily d).total_rows ≠ 0 <;> simp [h]
  · funext d dom
    by_cases h : s.domains_daily d dom ≠ 0 <;> simp [h]
  · funext e
    by_cases h : s.dedup.email_global_counts e ≠ 0 <;> simp [h, upsertRep_absorb]

/-- Dropping unparseable-date rows changes no date group. -/
theorem groupRows_filter_some (rows : List Row) (d : Nat) :
    groupRows (rows.filter fun r => r.date.isSome) d = groupRows rows d := by
  unfold groupRows
  rw [List.filter_filter]
  refine List.filter_congr ?_
  intro r _
  cases hr : r.date <;> simp [hr]

/-- Dropping unparseable-date rows keeps the daily fold intact. -/
theorem processDaily_filter_some (f : Nat → DailyMetric) (rows : List Row) :
    processDaily f (rows.filter fun r => r.date.isSome) = processDaily f rows := by
  funext d
  rw [processDaily_eq, processDaily_eq, groupRows_filter_some]

/-- Dropping unparseable-date rows keeps the domains fold intact. -/
theorem processDomains_filter_some (f : Nat → String → Nat) (rows : List Row) :
    processDomains f (rows.filter fun r => r.date.isSome) = processDomains f rows := by
  funext d dom
  rw [processDomains_eq, processDomains_eq, groupRows_filter_some]

/-- Dropping unparseable-date rows keeps the dedup candidates intact (they
are dropna-filtered anyway). -/
theorem dedupRows_filter_some (rows : List Row) :
    dedupRows (rows.filter fun r => r.date.isSome) = dedupRows rows := by
  unfold dedupRows
  simp only [List.filter_filter]
  refine List.filter_congr ?_
  intro r _
  cases hr : r.date <;> simp [hr]

/-- Dropping unparseable-date rows does not change a processed chunk. -/
theorem applyChunk_filter_some (s : AggState) (rows : List Row) :
    applyChunk s (rows.filter fun r => r.date.isSome) = applyChunk s rows := by
  unfold applyChunk
  rw [processDaily_filter_some, processDomains_filter_some]
  unfold processDedup
  rw [dedupRows_filter_some]

/-- Dropping unparseable-date rows from every chunk leaves any run's outcome
unchanged. -/
theorem foldlM_filter_some (bs : List Batch) :
    ∀ s : AggState,
      (bs.map dropUnparseable).foldlM process_chunk s = bs.foldlM process_chunk s := by
  induction bs with
  | nil => intro s; rfl
  | cons b bs ih =>
    intro s
    rw [List.map_cons, List.foldlM_cons, List.foldlM_cons]
    by_cases hc : hasRequiredCols b
    · have hcd : hasRequiredCols (dropUnparseable b) = true := hc
      simp only [process_chunk, hc, hcd, if_pos]
      have hrows : applyChunk s (dropUnparseable b).rows = applyChunk s b.rows :=
        applyChunk_filter_some s b.rows
      rw [hrows]
      exact ih (applyChunk s b.rows)
    · have h1 : process_chunk s (dropUnparseable b) = Except.error "Chunk sin columnas esperadas" := by
        unfold process_chunk
        exact if_neg hc
      have h2 : process_chunk s b = Except.error "Chunk sin columnas esperadas" := by
        unfold process_chunk
        exact if_neg hc
      rw [h1, h2]
      exact rfl

/-- A chunk missing a required column makes the whole run raise. -/
theorem runBatches_error_of_missing (bs : List Batch) :
    ∀ s0 : AggState, (∃ b ∈ bs, hasRequiredCols b = false) →
      bs.foldlM process_chunk s0 = Except.error "Chunk sin columnas esperadas" := by
  induction bs with
  | nil =>
    intro s0 h
    rcases h with ⟨b, hb, _⟩
    cases hb
  | cons b bs ih =>
    intro s0 h
    rw [List.foldlM_cons]
    by_cases hc : hasRequiredCols b
    · have htail : ∃ x ∈ bs, hasRequiredCols x = false := by
        rcases h with ⟨x, hx, hfx⟩
        rcases List.mem_cons.mp hx with rfl | hx2
        · rw [hc] at hfx
          cases hfx
        · exact ⟨x, hx2, hfx⟩
      simp only [process_chunk, hc, if_pos]
      exact ih _ htail
    · have h2 : process_chunk s0 b = Except.error "Chunk sin columnas esperadas" := by
        unfold process_chunk
        exact if_neg hc
      rw [h2]
      exact rfl

/-- The total_rows of a run counts the date's rows over all chunks. -/
theorem run_total (bs : List Batch) (d : Nat) :
    ((foldChunks initState bs).daily d).total_rows = (groupRows (flatRows bs) d).length := by
  have h := foldChunks_field (fun m => m.total_rows) (fun g => g.length)
    (fun m g => rfl) rfl (fun a b => by simp) bs initState d
  simpa [initState, DailyMetric.init] using h

/-- The with_email of a run counts the date's non-empty-email rows. -/
theorem run_with (bs : List Batch) (d : Nat) :
    ((foldChunks initState bs).daily d).with_email
      = (withEmailRows (groupRows (flatRows bs) d)).length := by
  have h := foldChunks_field (fun m => m.with_email) (fun g => (withEmailRows g).length)
    (fun m g => rfl) rfl (fun a b => by simp [withEmailRows_append]) bs initState d
  simpa [initState, DailyMetric.init] using h

/-- The valid_emails of a run counts the date's regex-valid rows. -/
theorem run_valid (bs : List Batch) (d : Nat) :
    ((foldChunks initState bs).daily d).valid_emails
      = (validRows (groupRows (flatRows bs) d)).length := by
  have h := foldChunks_field (fun m => m.valid_emails) (fun g => (validRows g).length)
    (fun m g => rfl) rfl (fun a b => by simp [validRows_append]) bs initState d
  simpa [initState, DailyMetric.init] using h

/-- The invalid_emails of a run counts the date's with-email rows failing
the pattern. -/
theorem run_invalid (bs : List Batch) (d : Nat) :
    ((foldChunks initState bs).daily d).invalid_emails
      = (invalidRows (groupRows (flatRows bs) d)).length := by
  have h := foldChunks_field (fun m => m.invalid_emails) (fun g => (invalidRows g).length)
    (fun m g => rfl) rfl (fun a b => by simp [invalidRows_append]) bs initState d
  simpa [initState, DailyMetric.init] using h

/-- C1: for every DailyMetric produced by a run over any batch sequence,
with_email = valid_emails + invalid_emails, total_rows is at least
with_email, and unique_valid_emails is at most valid_emails. -/
theorem c1_daily_invariants (bs : List Batch) (s : AggState)
    (h : runBatches bs = Except.ok s) (d : Nat) :
    (s.daily d).with_email = (s.daily d).valid_emails + (s.daily d).invalid_emails
      ∧ (s.daily d).with_email ≤ (s.daily d).total_rows
      ∧ (s.daily d).unique_valid_emails ≤ (s.daily d).valid_emails := by
  have hs : s = foldChunks initState bs := runBatches_ok_inv bs initState s h
  subst hs
  have ht := run_total bs d
  have hw := run_with bs d
  have hv := run_valid bs d
  have hi := run_invalid bs d
  have hud := foldChunks_ud bs initState d rfl
  have hsplit := group_valid_invalid_split (groupRows (flatRows bs) d)
  have hle := withEmail_le_total (groupRows (flatRows bs) d)
  refine ⟨?_, ?_, ?_⟩ <;> omega

/-- Witness for C1 at a concrete one-batch run. -/
theorem c1_daily_invariants_witness :
    ((runPure [wBatch]).daily 1).with_email
        = ((runPure [wBatch]).daily 1).valid_emails
          + ((runPure [wBatch]).daily 1).invalid_emails
      ∧ ((runPure [wBatch]).daily 1).with_email ≤ ((runPure [wBatch]).daily 1).total_rows
      ∧ ((runPure [wBatch]).daily 1).unique_valid_emails
          ≤ ((runPure [wBatch]).daily 1).valid_emails :=
  c1_daily_invariants [wBatch] (runPure [wBatch])
    (runBatches_eq_runPure [wBatch] (by decide)) 1

/-- C2: for a fixed row sequence, every batch split yields identical
total_rows, with_email, valid_emails, invalid_emails, sendable_emails,
total_opens, total_clicks per date, identical (date, domain) counts and an
identical global dedup index; only unique_valid_emails and
duplicates_extra_rows may depend on the split. -/
theorem c2_batch_split_invariance (bs1 bs2 : List Batch)
    (h1 : ∀ b ∈ bs1, hasRequiredCols b = true)
    (h2 : ∀ b ∈ bs2, hasRequiredCols b = true)
    (hrows : flatRows bs1 = flatRows bs2) :
    (runBatches bs1).map stablePart = (runBatches bs2).map stablePart := by
  rw [runBatches_eq_runPure bs1 h1, runBatches_eq_runPure bs2 h2]
  have hA : (fun d => stableDaily ((runPure bs1).daily d))
      = (fun d => stableDaily ((runPure bs2).daily d)) := by
    funext d
    rw [runPure_stableDaily, runPure_stableDaily, hrows]
  have hB : (runPure bs1).domains_daily = (runPure bs2).domains_daily := by
    funext d dom
    rw [runPure_domains, runPure_domains, hrows]
  have hC : (runPure bs1).dedup = (runPure bs2).dedup := by
    rw [runPure_dedup, runPure_dedup, hrows]
  show Except.ok (stablePart (runPure bs1)) = Except.ok (stablePart (runPure bs2))
  unfold stablePart
  rw [hA, hB, hC]

/-- Witness for C2: one two-row chunk against two one-row chunks. -/
theorem c2_batch_split_invariance_witness :
    (runBatches [wBatch]).map stablePart = (runBatches [wBatchA, wBatchB]).map stablePart :=
  c2_batch_split_invariance [wBatch] [wBatchA, wBatchB] (by decide) (by decide) rfl

/-- C3 counterexample: the classifier table of the claim fails on the code.
The single-letter TLD address "a@b.c" is not counted as VALID (the pattern
demands a TLD of two or more letters), and a NULL email cell is not EMPTY
(astype(str) renders it as the non-empty string "None"). -/
theorem c3_classifier_table_counterexample :
    classifyCounts (some "a@b.c") ≠ (1, 1, 1, 0)
      ∧ classifyCounts none ≠ (1, 0, 0, 0) := by
  decide

/-- C3 amended: the classifier outcomes actually produced by process_chunk.
A whitespace-only email is EMPTY (in total_rows only); "a@b.c" is INVALID
(single-letter TLD) and yields no domain count; "a@@b.com" is INVALID;
"John.Doe+x@sub.example.co" is VALID with domain sub.example.co;
"not-an-email" is INVALID; a NULL email is INVALID (stringified to "None",
which is non-empty and fails the pattern). -/
theorem c3_classifier_table_amended :
    classifyCounts (some " ") = (1, 0, 0, 0)
      ∧ classifyCounts (some "a@b.c") = (1, 1, 0, 1)
      ∧ classifyDomain (some "a@b.c") "b.c" = 0
      ∧ classifyCounts (some "a@@b.com") = (1, 1, 0, 1)
      ∧ classifyCounts (some "John.Doe+x@sub.example.co") = (1, 1, 1, 0)
      ∧ classifyDomain (some "John.Doe+x@sub.example.co") "sub.example.co" = 1
      ∧ classifyCounts (some "not-an-email") = (1, 1, 0, 1)
      ∧ classifyCounts none = (1, 1, 0, 1) := by
  decide

/-- C4: the five-row scenario batch dated 2025-01-01 produces total_rows=5,
with_email=4, valid_emails=3, invalid_emails=1, unique_valid_emails=2,
duplicates_extra_rows=1 and domain counts x.com=2, y.com=1. -/
theorem c4_scenario_counts :
    (runBatches [c4Batch]).map
        (fun s => ((s.daily 20250101).total_rows, (s.daily 20250101).with_email,
                   (s.daily 20250101).valid_emails, (s.daily 20250101).invalid_emails,
                   (s.daily 20250101).unique_valid_emails,
                   (s.daily 20250101).duplicates_extra_rows,
                   s.domains_daily 20250101 "x.com", s.domains_daily 20250101 "y.com"))
      = Except.ok (5, 4, 3, 1, 2, 1, 2, 1) := by
  rfl

/-- C5: the repeated-email flush overwrites occurrences with this run's
value, takes the minimum of existing and new first_seen and the maximum of
existing and new last_seen, and inserts new keys as computed. -/
theorem c5_repeated_email_upsert :
    (∀ (store : Store) (s : AggState) (e : String) (old : RepRow) (a b c d : Nat),
        store.metrics_repeated_emails e = some old →
        s.dedup.email_global_counts e ≠ 0 →
        old.first_seen = some a → s.dedup.email_first_seen e = some b →
        old.last_seen = some c → s.dedup.email_last_seen e = some d →
        (flush_to_mysql store s).metrics_repeated_emails e
          = some ⟨s.dedup.email_global_counts e, some (Nat.min a b), some (Nat.max c d)⟩)
    ∧ (∀ (store : Store) (s : AggState) (e : String),
        store.metrics_repeated_emails e = none →
        s.dedup.email_global_counts e ≠ 0 →
        (flush_to_mysql store s).metrics_repeated_emails e
          = some ⟨s.dedup.email_global_counts e, s.dedup.email_first_seen e,
                  s.dedup.email_last_seen e⟩) := by
  constructor
  · intro store s e old a b c d hold hocc hfa hfb hfc hfd
    simp [flush_to_mysql, hocc, hold, upsertRep, hfa, hfb, hfc, hfd,
          leastCoalesce, greatestCoalesce]
  · intro store s e hold hocc
    simp [flush_to_mysql, hocc, hold, upsertRep]

/-- Witness for C5 at a concrete store and accumulator state. -/
theorem c5_repeated_email_upsert_witness :
    (flush_to_mysql wStore wAgg).metrics_repeated_emails "a@x.com"
        = some ⟨2, some (Nat.min 5 6), some (Nat.max 7 6)⟩
      ∧ (flush_to_mysql wStore wAgg).metrics_repeated_emails "b@y.com"
        = some ⟨2, some 6, some 6⟩ :=
  ⟨c5_repeated_email_upsert.1 wStore wAgg "a@x.com" ⟨1, some 5, some 7⟩ 5 6 7 6
      (by decide) (by decide) (by decide) (by decide) (by decide) (by decide),
   c5_repeated_email_upsert.2 wStore wAgg "b@y.com" (by decide) (by decide)⟩

/-- C6: running the pipeline twice over the identical batch sequence (the
run is a pure function of the batches, each run starting from the freshly
initialized accumulators) and flushing after each run leaves the store
exactly as a single run-and-flush: DailyMetric and DomainDailyCount rows are
overwritten with equal values, RepeatedEmail occurrences stay equal, and
first_seen/last_seen are stable under min/max of identical values. -/
theorem c6_run_flush_idempotent (bs : List Batch) (store : Store) :
    (runBatches bs).map (fun s => flush_to_mysql (flush_to_mysql store s) s)
      = (runBatches bs).map (fun s => flush_to_mysql store s) := by
  cases h : runBatches bs with
  | error e => rfl
  | ok s => simp [Except.map, flush_idem]

/-- C7: rows whose creation date is null or unparseable contribute to no
per-date aggregate and to no dedup-index entry: deleting them from every
chunk leaves the whole run outcome unchanged. -/
theorem c7_unparseable_dates_dropped (bs : List Batch) :
    runBatches (bs.map dropUnparseable) = runBatches bs :=
  foldlM_filter_some bs initState

/-- C8: a batch missing a required email or date column aborts the run with
an error before the flush step, so the store receives no write. -/
theorem c8_missing_columns_abort (store : Store) (bs : List Batch)
    (h : ∃ b ∈ bs, hasRequiredCols b = false) :
    ∃ msg, mainRun store bs = Except.error msg := by
  refine ⟨"Chunk sin columnas esperadas", ?_⟩
  unfold mainRun runBatches
  rw [runBatches_error_of_missing bs initState h]
  rfl

/-- Witness for C8 at a concrete column-less batch. -/
theorem c8_missing_columns_abort_witness :
    ∃ msg, mainRun emptyStore [wBadBatch] = Except.error msg :=
  c8_missing_columns_abort emptyStore [wBadBatch] ⟨wBadBatch, by decide, by decide⟩

/-- C9: for every date of a run's output, the sum of the (date, domain)
counts over any collection of distinct domains is at most that date's
valid_emails. -/
theorem c9_domain_sum_le_valid (bs : List Batch) (s : AggState)
    (h : runBatches bs = Except.ok s) (d : Nat) (ds : List String)
    (hnd : ds.Nodup) :
    (ds.map fun dom => s.domains_daily d dom).sum ≤ (s.daily d).valid_emails := by
  have hs : s = foldChunks initState bs := runBatches_ok_inv bs initState s h
  subst hs
  have hv := run_valid bs d
  have heq : (ds.map fun dom => (foldChunks initState bs).domains_daily d dom).sum
      = (ds.map fun dom => (domainsOf (groupRows (flatRows bs) d)).count dom).sum := by
    refine congrArg _ (List.map_congr_left ?_)
    intro dom _
    have hd := foldChunks_domains bs initState d dom
    simpa [initState, domCount] using hd
  have hle := sum_counts_le ds (domainsOf (groupRows (flatRows bs) d)) hnd
  have hfm : (domainsOf (groupRows (flatRows bs) d)).length
      ≤ (validRows (groupRows (flatRows bs) d)).length :=
    List.length_filterMap_le _ _
  rw [heq]
  omega

/-- Witness for C9 at a concrete one-batch run. -/
theorem c9_domain_sum_le_valid_witness :
    (["x.com"].map fun dom => (runPure [wBatch]).domains_daily 1 dom).sum
      ≤ ((runPure [wBatch]).daily 1).valid_emails :=
  c9_domain_sum_le_valid [wBatch] (runPure [wBatch])
    (runBatches_eq_runPure [wBatch] (by decide)) 1 ["x.com"] (by decide)

/-- C10: for every DailyMetric produced by a run,
unique_valid_emails + duplicates_extra_rows = valid_emails holds exactly. -/
theorem c10_unique_plus_dupes_eq_valid (bs : List Batch) (s : AggState)
    (h : runBatches bs = Except.ok s) (d : Nat) :
    (s.daily d).unique_valid_emails + (s.daily d).duplicates_extra_rows
      = (s.daily d).valid_emails := by
  have hs : s = foldChunks initState bs := runBatches_ok_inv bs initState s h
  subst hs
  exact foldChunks_ud bs initState d rfl

/-- Witness for C10 at a concrete one-batch run. -/
theorem c10_unique_plus_dupes_eq_valid_witness :
    ((runPure [wBatch]).daily 1).unique_valid_emails
        + ((runPure [wBatch]).daily 1).duplicates_extra_rows
      = ((runPure [wBatch]).daily 1).valid_emails :=
  c10_unique_plus_dupes_eq_valid [wBatch] (runPure [wBatch])
    (runBatches_eq_runPure [wBatch] (by decide)) 1

end Dash
